import Mathlib

/-!
Verification of `pyjacket.filetools.image._image` (kaspy repository).

The Python source is shallowly embedded below.  Python exceptions are
modelled by the `PyErr` type; the spec's error taxonomy maps onto it as
  InvalidArgument  ↦ PyErr.valueError     (Python `ValueError`)
  NotImplemented   ↦ PyErr.notImplementedError
  IndexOutOfRange  ↦ PyErr.indexError     (Python `IndexError`)
  InvalidData      ↦ PyErr.zeroDivisionError (Python `ZeroDivisionError`
                      raised by `Fraction(n, 0)`)
  calling `None`   ↦ PyErr.typeError      (Python `TypeError`)
Fallible code returns `Except PyErr _`.  Machine integers are `Int`/`Nat`
(Python integers are unbounded, so no wraparound is modelled).
-/

deriving instance DecidableEq for Except

inductive PyErr where
  | valueError
  | typeError
  | indexError
  | notImplementedError
  | zeroDivisionError
deriving DecidableEq

/-- A Python `slice(start, stop, step)` object; `none` is Python `None`. -/
structure PySlice where
  start : Option Int
  stop : Option Int
  step : Option Int
deriving DecidableEq

/-- Python `slice(None, None, None)`, the full-range default. -/
def defaultSlice : PySlice := ⟨none, none, none⟩

/-- CPython's `slice.indices(n)` (PySlice_Unpack + PySlice_AdjustIndices):
resolves the possibly-`None` fields against a sequence of length `n`,
clamping into range; raises `ValueError` when step is zero. -/
def sliceIndices (s : PySlice) (n : Nat) : Except PyErr (Int × Int × Int) :=
  let step := s.step.getD 1
  if step = 0 then .error .valueError
  else
    let N : Int := n
    let lower : Int := if step < 0 then -1 else 0
    let upper : Int := if step < 0 then N - 1 else N
    let lo := match s.start with
      | none => if step < 0 then upper else lower
      | some i => if i < 0 then max (i + N) lower else min i upper
    let hi := match s.stop with
      | none => if step < 0 then lower else upper
      | some i => if i < 0 then max (i + N) lower else min i upper
    .ok (lo, hi, step)

/-- Function `slice_length(s, n)` from `_image.py`: how many elements belong to a
slice of an iterable of size `n`.  Python `//` is floor division, so the
two branches are translated with `Int.fdiv`.  (The final `else` mirrors
the source's `raise ValueError("Slice step cannot be zero")`; it is
unreachable because `s.indices(n)` already rejects a zero step.) -/
def slice_length (s : PySlice) (n : Nat) : Except PyErr Nat :=
  match sliceIndices s n with
  | .error e => .error e
  | .ok (start, stp, step) =>
    if 0 < step then .ok (max 0 ((stp - start + (step - 1)).fdiv step)).toNat
    else if step < 0 then .ok (max 0 ((start - stp - (step + 1)).fdiv (-step))).toNat
    else .error .valueError

/-- Fuel-driven materialization of Python `range(a, b, c)`: emits `a`,
`a+c`, ... while the index is on the proper side of `b`.  The fuel only
bounds recursion depth; `rangeList` below supplies enough fuel that the
whole range is produced. -/
def rangeListAux : Nat → Int → Int → Int → List Int
  | 0, _, _, _ => []
  | fuel + 1, a, b, c =>
    if (0 < c ∧ a < b) ∨ (c < 0 ∧ b < a) then a :: rangeListAux fuel (a + c) b c
    else []

/-- The list of indices of Python `range(a, b, c)` (for `c ≠ 0`). -/
def rangeList (a b c : Int) : List Int :=
  rangeListAux (if 0 < c then b - a else a - b).toNat a b c

/-- A reduced `fractions.Fraction` value (numerator, denominator). -/
structure PyFraction where
  num : Int
  den : Int
deriving DecidableEq

/-- Python `fractions.Fraction(numerator, denominator)` on ints: raises
`ZeroDivisionError` when the denominator is zero, otherwise reduces by
`g = math.gcd(numerator, denominator)` (negated when the denominator is
negative) using floor division `//`. -/
def mkFraction (n d : Int) : Except PyErr PyFraction :=
  if d = 0 then .error .zeroDivisionError
  else
    let g0 : Int := Int.gcd n d
    let g : Int := if d < 0 then -g0 else g0
    .ok ⟨n.fdiv g, d.fdiv g⟩

/-- The exact rational value of a `Fraction`.  (`Metadata.resolution`
applies Python `float` to this; we keep the exact rational, which is what
the float is derived from.) -/
def PyFraction.toRat (f : PyFraction) : ℚ := (f.num : ℚ) / (f.den : ℚ)

/-- Property `Metadata.resolution` from `_image.py`: reads EXIF tags 282 and 283
(each an optional `(numerator, denominator)` rational), converts each via
`Fraction` when present (a present tag value is a nonempty tuple, hence
truthy), defaults to `1`, and returns the pair `(y, x)`.  The EXIF table
is modelled as the map from tag id to the stored rational pair; the
`x` tag (282) is converted before the `y` tag (283), as in the source. -/
def resolution (exif : Nat → Option (Int × Int)) : Except PyErr (ℚ × ℚ) := do
  let xq : ℚ ←
    match exif 282 with
    | some (a, b) => (mkFraction a b).map PyFraction.toRat
    | none => pure 1
  let yq : ℚ ←
    match exif 283 with
    | some (a, b) => (mkFraction a b).map PyFraction.toRat
    | none => pure 1
  pure (yq, xq)

/-- Spec-side value of one resolution tag: the exact rational
`numerator / denominator` when the tag is present, else the default `1`. -/
def ratOfTag : Option (Int × Int) → ℚ
  | none => 1
  | some (a, b) => (a : ℚ) / (b : ℚ)

/-- A decoded frame: a single plane, or channel planes stacked along a new
trailing axis (`np.stack(stack, axis=-1)`).  Planes are opaque decoder
output of type `α`. -/
inductive Frame (α : Type) where
  | plane (p : α)
  | stack (ps : List α)
deriving DecidableEq

/-- The state of a `TifImageHandle` (the one concrete `ImageHandle`):
`dataShape` is the native shape of `self.data` (the tifffile series) and
`asarray k` models `self.data.asarray(key=k)`.  Opening a filename is
deterministic, so a copy constructed from the same filename carries the
same `dataShape`/`asarray`. -/
structure ImageHandle (α : Type) where
  filename : String
  channel : Nat
  dataShape : List Nat
  asarray : Int → α
  slices : List PySlice

/-- Constructor `ImageHandle.__init__`: stores `channel or 1` (Python `None` and `0`
are falsy) and `slices = [slice(None, None, None)] * self.ndim`. -/
def mkHandle {α : Type} (filename : String) (channel : Option Nat) (dataShape : List Nat)
    (asarray : Int → α) : ImageHandle α :=
  { filename := filename
    channel := match channel with
      | none => 1
      | some 0 => 1
      | some c => c
    dataShape := dataShape
    asarray := asarray
    slices := List.replicate dataShape.length defaultSlice }

/-- Property `ndim` delegates to `self.data.ndim`, the length of the native shape. -/
def ImageHandle.ndim {α : Type} (h : ImageHandle α) : Nat := h.dataShape.length

/-- Property `TifImageHandle.shape`: the native shape when under 4 dimensions,
otherwise the reorder `(s[0], s[3], s[2], s[1])` that moves the channel
axis last. -/
def ImageHandle.shape {α : Type} (h : ImageHandle α) : List Nat :=
  if h.dataShape.length < 4 then h.dataShape
  else [h.dataShape.getD 0 0, h.dataShape.getD 3 0, h.dataShape.getD 2 0, h.dataShape.getD 1 0]

/-- Method `TifImageHandle.get(i)`: raises `IndexError` unless `-N < i <= N`
with `N = self.shape[0]`; for 4-dimensional data reads
`num_channels = self.shape[3]` consecutive planes starting at plane
`i * num_channels` and stacks them, otherwise decodes plane `i` directly.
(`self.shape[0]` on an empty shape tuple is itself an `IndexError`.) -/
def ImageHandle.get {α : Type} (h : ImageHandle α) (i : Int) : Except PyErr (Frame α) :=
  match h.shape with
  | [] => .error .indexError
  | N :: _ =>
    if ¬(-(N : Int) < i ∧ i ≤ (N : Int)) then .error .indexError
    else if h.dataShape.length = 4 then
      let num_channels := h.shape.getD 3 0
      let i2 := i * (num_channels : Int)
      .ok (.stack ((List.range num_channels).map (fun di : Nat => h.asarray (i2 + (di : Int)))))
    else .ok (.plane (h.asarray i))

/-- Method `copy()`: `type(self)(self.filename, channel=self.channel)` re-opens
the file; the fresh handle's `slices` are reset to the full-range default. -/
def ImageHandle.copy {α : Type} (h : ImageHandle α) : ImageHandle α :=
  mkHandle h.filename (some h.channel) h.dataShape h.asarray

/-- Property `slice_shape`: `[slice_length(s, n) for s, n in zip(self.slices, self.shape)]`
(a zero slice step would raise out of the comprehension). -/
def ImageHandle.slice_shape {α : Type} (h : ImageHandle α) : Except PyErr (List Nat) :=
  (h.slices.zip h.shape).mapM (fun p => slice_length p.1 p.2)

/-- Arguments `__getitem__` distinguishes with `isinstance`: an int, a
slice, a tuple of slices, or anything else (a list, a string, ...). -/
inductive IndexArg where
  | int (i : Int)
  | slice (s : PySlice)
  | tuple (ts : List PySlice)
  | other

/-- What `__getitem__` evaluates to: a decoded frame, a new handle,
Python `None` (the fall-through when no `isinstance` branch matches), or
a raised exception. -/
inductive GetItemRes (α : Type) where
  | frame (f : Frame α)
  | handle (h : ImageHandle α)
  | pyNone
  | err (e : PyErr)

/-- The loop `for i, s in enumerate(val): if s != slice(None, None, None):
obj.slices[i] = s`, with `k` the enumeration position; Python list item
assignment raises `IndexError` when the position is out of range. -/
def setSlices (acc : List PySlice) (k : Nat) : List PySlice → Except PyErr (List PySlice)
  | [] => .ok acc
  | s :: rest =>
    if s = defaultSlice then setSlices acc (k + 1) rest
    else if k < acc.length then setSlices (acc.set k s) (k + 1) rest
    else .error .indexError

/-- Method `ImageHandle.__getitem__`.  The result is paired with the state of
`self` after the call: the method only mutates the fresh object `obj`
(whose `slices` list is freshly allocated — by `__init__` inside `copy()`
in the slice branch, and by the `self.slices[:]` copy in the tuple
branch), so `self` comes back unchanged. -/
def getitem {α : Type} (h : ImageHandle α) : IndexArg → ImageHandle α × GetItemRes α
  | .int i =>
    (h, match h.get i with
        | .ok f => .frame f
        | .error e => .err e)
  | .slice s =>
    let obj := h.copy
    if obj.slices.isEmpty then (h, .err .indexError)
    else (h, .handle { obj with slices := obj.slices.set 0 s })
  | .tuple ts =>
    let obj := h.copy
    match setSlices h.slices 0 ts with
    | .ok l => (h, .handle { obj with slices := l })
    | .error e => (h, .err e)
  | .other => (h, .pyNone)

/-- Method `__iter__`: resolve dimension 0's slice against `shape[0]`, decode the
frame at each index of the resulting range in order, and crop it by the
remaining slices (`frame[tuple(self.slices[1:])]`).  Numpy slicing of a
decoded frame is outside the core; it is abstracted by the `crop`
parameter. -/
def iterFrames {α β : Type} (crop : Frame α → List PySlice → β) (h : ImageHandle α) :
    Except PyErr (List β) :=
  match h.slices with
  | [] => .error .indexError
  | s0 :: rest =>
    match h.shape with
    | [] => .error .indexError
    | N :: _ =>
      match sliceIndices s0 N with
      | .error e => .error e
      | .ok (a, b, c) =>
        (rangeList a b c).mapM (fun i => (h.get i).map (fun f => crop f rest))

/-- The slice literals `2:5`, `0:10` and `0:1` used by the claims. -/
def slice25 : PySlice := ⟨some 2, some 5, none⟩

def slice010 : PySlice := ⟨some 0, some 10, none⟩

def slice01 : PySlice := ⟨some 0, some 1, none⟩

/-- The composed slicing `handle[2:5][:, 0:10]` (propagating a raised
error of the first indexing). -/
def composedResult {α : Type} (h : ImageHandle α) : GetItemRes α :=
  match (getitem h (.slice slice25)).2 with
  | .handle a => (getitem a (.tuple [defaultSlice, slice010])).2
  | r => r

/-- The direct slicing `handle[2:5, 0:10]`. -/
def directResult {α : Type} (h : ImageHandle α) : GetItemRes α :=
  (getitem h (.tuple [slice25, slice010])).2

/-- Extract the handle of a `__getitem__` result (with a fallback). -/
def resHandle {α : Type} (r : GetItemRes α) (dflt : ImageHandle α) : ImageHandle α :=
  match r with
  | .handle h => h
  | _ => dflt

def isHandle {α : Type} : GetItemRes α → Bool
  | .handle _ => true
  | _ => false

/-- A freshly opened 3-dimensional handle (counterexample construction). -/
def cexBase : ImageHandle Nat := mkHandle "a.tif" none [3, 4, 5] (fun _ => 0)

/-- Handle `cexBase[:, :, 0:1]`: a reachable handle whose dimension-2 slice has
been narrowed while dimensions 0 and 1 stay default. -/
def cexNarrowed : ImageHandle Nat :=
  resHandle (getitem cexBase (.tuple [defaultSlice, defaultSlice, slice01])).2 cexBase

/-- An eagerly decoded numpy array: a shape plus an index function. -/
structure NDArr (α : Type) where
  shape : List Nat
  val : List Nat → α

def NDArr.ndim {α : Type} (a : NDArr α) : Nat := a.shape.length

/-- Numpy `np.transpose(data, (0, 2, 3, 1))` on 4-dimensional data:
`(frames, ch, y, x) => (frames, y, x, ch)`. -/
def npTranspose0231 {α : Type} (a : NDArr α) : NDArr α :=
  { shape := match a.shape with
      | [s0, s1, s2, s3] => [s0, s2, s3, s1]
      | s => s
    val := fun ix => match ix with
      | [j0, j1, j2, j3] => a.val [j0, j3, j1, j2]
      | ix => a.val ix }

/-- Numpy `data[:, :, :, channel]`: fix the last of 4 axes to one channel. -/
def npSelectLast {α : Type} (a : NDArr α) (c : Nat) : NDArr α :=
  { shape := a.shape.dropLast
    val := fun ix => a.val (ix ++ [c]) }

/-- Python `str.split(sep)` for a one-character separator, on the
character list of the string (structural, so that concrete paths
evaluate): `"a.tif" => ["a", "tif"]`, `"" => [""]`. -/
def splitOnChar (c : Char) : List Char → List (List Char)
  | [] => [[]]
  | x :: xs =>
    let r := splitOnChar c xs
    if x = c then [] :: r
    else
      match r with
      | [] => [[x]]
      | y :: ys => (x :: y) :: ys

/-- Python `filepath.split('.')[-1]`: the extension of a path. -/
def pyExt (filepath : String) : List Char := (splitOnChar '.' filepath.data).getLastD []

/-- The keys of the eager reader dispatch dict in `imread`. -/
def eagerExts : List (List Char) :=
  ["tif".data, "tiff".data, "png".data, "jpg".data, "nd2".data, "avi".data]

/-- Result of `imread`: a lazy handle or an eager array. -/
inductive ImreadResult (α : Type) where
  | handle (h : ImageHandle α)
  | arr (a : NDArr α)

/-- Function `imread(filepath, lazy, channel)`.  The opaque codec services are
parameters: `openTif path` is what `tifffile.TiffFile(path).series[0]`
yields (native shape and plane decoder) and `readers ext path` the eager
per-extension decoders.  Faithful detail: the lazy branch looks the
extension up in a dict holding only `'tif'` and calls the result with no
`None` check, so any other extension calls `None` and raises `TypeError`;
the eager branch does check and raises `NotImplementedError`. -/
def imread {α : Type} (openTif : String → List Nat × (Int → α))
    (readers : List Char → String → NDArr α) (filepath : String) (lazy : Bool)
    (channel : Option Nat) : Except PyErr (ImreadResult α) :=
  if ¬ (filepath.data.contains '.') then .error .valueError
  else
    let ext := pyExt filepath
    if lazy then
      if ext = "tif".data then
        .ok (.handle (mkHandle filepath channel (openTif filepath).1 (openTif filepath).2))
      else .error .typeError
    else
      if ext ∈ eagerExts then
        let data0 := readers ext filepath
        let data := if data0.ndim = 4 then npTranspose0231 data0 else data0
        match channel with
        | none => .ok (.arr data)
        | some c =>
          if data.ndim = 4 then .ok (.arr (npSelectLast data c))
          else .error .notImplementedError
      else .error .notImplementedError

/-- Spec-side description of tuple indexing (C3): position `j` of the new
slices holds the tuple entry at offset `j - k` when that entry exists and
is not the full-range default, and the original entry otherwise (`k` is
the position where the enumeration starts; `__getitem__` uses `k = 0`). -/
def updSpec (orig ts : List PySlice) (k j : Nat) : Option PySlice :=
  if k ≤ j then
    match ts[j - k]? with
    | some s => if s = defaultSlice then orig[j]? else some s
    | none => orig[j]?
  else orig[j]?

theorem fdiv_nonpos_of_lt {x c : Int} (hc : 0 < c) (hx : x < c) : x.fdiv c ≤ 0 := by
  rw [Int.fdiv_eq_ediv _ (le_of_lt hc)]
  have h1 : x / c < 1 := (Int.ediv_lt_iff_lt_mul hc).mpr (by omega)
  omega

theorem fdiv_succ_block {y c : Int} (hc : 0 < c) (hy : 0 ≤ y) :
    (y + c).fdiv c = y.fdiv c + 1 ∧ 0 ≤ y.fdiv c := by
  rw [Int.fdiv_eq_ediv _ (le_of_lt hc), Int.fdiv_eq_ediv _ (le_of_lt hc)]
  constructor
  · have := Int.add_mul_ediv_right y 1 (by omega : c ≠ 0)
    simpa using this
  · exact Int.ediv_nonneg hy (le_of_lt hc)

theorem rangeListAux_length_pos :
    ∀ (fuel : Nat) (a b c : Int), 0 < c → (b - a).toNat ≤ fuel →
      (rangeListAux fuel a b c).length = (max 0 ((b - a + (c - 1)).fdiv c)).toNat := by
  intro fuel
  induction fuel with
  | zero =>
    intro a b c hc hf
    have hba : b ≤ a := by omega
    have hle : (b - a + (c - 1)).fdiv c ≤ 0 := fdiv_nonpos_of_lt hc (by omega)
    simp [rangeListAux]
    omega
  | succ k ih =>
    intro a b c hc hf
    by_cases hab : a < b
    · have hck : (b - (a + c)).toNat ≤ k := by omega
      have ihs := ih (a + c) b c hc hck
      have harith := fdiv_succ_block (y := b - a - 1) hc (by omega)
      have hnum : b - (a + c) + (c - 1) = b - a - 1 := by ring
      rw [hnum] at ihs
      have hcnd : (0 < c ∧ a < b) ∨ (c < 0 ∧ b < a) := Or.inl ⟨hc, hab⟩
      simp only [rangeListAux, if_pos hcnd, List.length_cons, ihs]
      have hnum2 : b - a + (c - 1) = (b - a - 1) + c := by ring
      rw [hnum2, harith.1]
      omega
    · have hle : (b - a + (c - 1)).fdiv c ≤ 0 := fdiv_nonpos_of_lt hc (by omega)
      have hcnd : ¬ ((0 < c ∧ a < b) ∨ (c < 0 ∧ b < a)) := by
        push_neg
        omega
      simp only [rangeListAux, if_neg hcnd, List.length_nil]
      omega

theorem rangeListAux_length_neg :
    ∀ (fuel : Nat) (a b c : Int), c < 0 → (a - b).toNat ≤ fuel →
      (rangeListAux fuel a b c).length = (max 0 ((a - b - (c + 1)).fdiv (-c))).toNat := by
  intro fuel
  induction fuel with
  | zero =>
    intro a b c hc hf
    have hba : a ≤ b := by omega
    have hle : (a - b - (c + 1)).fdiv (-c) ≤ 0 := fdiv_nonpos_of_lt (by omega) (by omega)
    simp [rangeListAux]
    omega
  | succ k ih =>
    intro a b c hc hf
    by_cases hab : b < a
    · have hck : (a + c - b).toNat ≤ k := by omega
      have ihs := ih (a + c) b c hc hck
      have harith := fdiv_succ_block (y := a - b - 1) (c := -c) (by omega) (by omega)
      have hnum : a + c - b - (c + 1) = a - b - 1 := by ring
      rw [hnum] at ihs
      have hcnd : (0 < c ∧ a < b) ∨ (c < 0 ∧ b < a) := Or.inr ⟨hc, hab⟩
      simp only [rangeListAux, if_pos hcnd, List.length_cons, ihs]
      have hnum2 : a - b - (c + 1) = (a - b - 1) + -c := by ring
      rw [hnum2, harith.1]
      omega
    · have hle : (a - b - (c + 1)).fdiv (-c) ≤ 0 := fdiv_nonpos_of_lt (by omega) (by omega)
      have hcnd : ¬ ((0 < c ∧ a < b) ∨ (c < 0 ∧ b < a)) := by
        push_neg
        omega
      simp only [rangeListAux, if_neg hcnd, List.length_nil]
      omega

theorem rangeList_length_pos (a b c : Int) (hc : 0 < c) :
    (rangeList a b c).length = (max 0 ((b - a + (c - 1)).fdiv c)).toNat := by
  unfold rangeList
  rw [if_pos hc]
  exact rangeListAux_length_pos _ a b c hc le_rfl

theorem rangeList_length_neg (a b c : Int) (hc : c < 0) :
    (rangeList a b c).length = (max 0 ((a - b - (c + 1)).fdiv (-c))).toNat := by
  unfold rangeList
  rw [if_neg (by omega)]
  exact rangeListAux_length_neg _ a b c hc le_rfl

theorem sliceIndices_step {s : PySlice} {n : Nat} {a b c : Int}
    (h : sliceIndices s n = .ok (a, b, c)) : c = s.step.getD 1 ∧ c ≠ 0 := by
  by_cases h0 : s.step.getD 1 = 0
  · simp only [sliceIndices] at h
    rw [if_pos h0] at h
    exact Except.noConfusion h
  · simp only [sliceIndices] at h
    rw [if_neg h0] at h
    injection h with h1
    have h3 := congrArg (fun p : Int × Int × Int => p.2.2) h1
    simp only at h3
    exact ⟨h3.symm, by omega⟩

theorem slice_length_of_indices {s : PySlice} {n : Nat} {a b c : Int}
    (h : sliceIndices s n = .ok (a, b, c)) (hc : c ≠ 0) :
    slice_length s n = .ok ((rangeList a b c).length) := by
  simp only [slice_length, h]
  rcases lt_or_gt_of_ne hc with hlt | hgt
  · rw [if_neg (by omega), if_pos hlt, rangeList_length_neg a b c hlt]
  · rw [if_pos hgt, rangeList_length_pos a b c hgt]

/-- C1: `slice_length(s, n)` returns exactly the number of indices of the
slice resolved against a length-`n` dimension with Python's half-open,
step-aware range semantics (the count of `range(start, stop, step)` after
`s.indices(n)` resolution), and it fails with `ValueError`
(spec: `InvalidArgument`) precisely when the slice step is zero. -/
theorem slice_length_counts_resolved_range (s : PySlice) (n : Nat) :
    (slice_length s n = .error .valueError ↔ s.step = some 0) ∧
    (∀ a b c, sliceIndices s n = .ok (a, b, c) →
      slice_length s n = .ok ((rangeList a b c).length)) := by
  have step2 : ∀ a b c, sliceIndices s n = .ok (a, b, c) →
      slice_length s n = .ok ((rangeList a b c).length) := by
    intro a b c h
    exact slice_length_of_indices h (sliceIndices_step h).2
  refine ⟨⟨?_, ?_⟩, step2⟩
  · intro herr
    by_cases h0 : s.step = some 0
    · exact h0
    · exfalso
      have hne : s.step.getD 1 ≠ 0 := by
        cases hs : s.step with
        | none => simp
        | some k =>
          simp only [Option.getD_some]
          intro hk
          exact h0 (by rw [hs, hk])
      have hok : ∃ a b c, sliceIndices s n = .ok (a, b, c) := by
        simp only [sliceIndices]
        rw [if_neg hne]
        exact ⟨_, _, _, rfl⟩
      obtain ⟨a, b, c, hok⟩ := hok
      rw [step2 a b c hok] at herr
      exact Except.noConfusion herr
  · intro h0
    have hz : s.step.getD 1 = 0 := by rw [h0]; rfl
    simp only [slice_length, sliceIndices]
    rw [if_pos hz]

/-- Witness for C1 at `slice(1, 7, 2)` against `n = 10`. -/
theorem slice_length_counts_resolved_range_witness :
    slice_length ⟨some 1, some 7, some 2⟩ 10 = .ok 3 := by
  have h := (slice_length_counts_resolved_range ⟨some 1, some 7, some 2⟩ 10).2 1 7 2 (by decide)
  rw [h]
  decide

theorem cast_ediv_div {n d g : Int} (hgn : g ∣ n) (hgd : g ∣ d) (hg : g ≠ 0)
    (hd : d ≠ 0) : ((n / g : Int) : ℚ) / ((d / g : Int) : ℚ) = (n : ℚ) / (d : ℚ) := by
  rw [Int.cast_div_charZero hgn, Int.cast_div_charZero hgd]
  have hgQ : (g : ℚ) ≠ 0 := Int.cast_ne_zero.mpr hg
  have hdQ : (d : ℚ) ≠ 0 := Int.cast_ne_zero.mpr hd
  field_simp

theorem mkFraction_exact {n d : Int} (hd : d ≠ 0) :
    (mkFraction n d).map PyFraction.toRat = .ok ((n : ℚ) / (d : ℚ)) := by
  unfold mkFraction
  rw [if_neg hd]
  have hg : (Int.gcd n d : Int) ≠ 0 := by
    simp only [ne_eq, Int.natCast_eq_zero]
    intro h
    exact hd (Int.gcd_eq_zero_iff.mp h).2
  have hGne : (if d < 0 then -(Int.gcd n d : Int) else (Int.gcd n d : Int)) ≠ 0 := by
    split <;> simpa using hg
  have hGn : (if d < 0 then -(Int.gcd n d : Int) else (Int.gcd n d : Int)) ∣ n := by
    split
    · exact (neg_dvd).mpr Int.gcd_dvd_left
    · exact Int.gcd_dvd_left
  have hGd : (if d < 0 then -(Int.gcd n d : Int) else (Int.gcd n d : Int)) ∣ d := by
    split
    · exact (neg_dvd).mpr Int.gcd_dvd_right
    · exact Int.gcd_dvd_right
  simp only [Except.map, PyFraction.toRat, Except.ok.injEq]
  rw [Int.fdiv_eq_ediv_of_dvd hGn, Int.fdiv_eq_ediv_of_dvd hGd]
  exact cast_ediv_div hGn hGd hGne hd

/-- C9: `Metadata.resolution` yields, for each of tags 282 and 283, the
exact rational value numerator/denominator (of which the reported float is
the conversion), defaults to `1` for an absent tag, and fails with
`ZeroDivisionError` (spec: `InvalidData`) for a rational with a zero
denominator, rather than producing an infinite value. -/
theorem resolution_exact_rational (e : Nat → Option (Int × Int)) :
    ((∀ p, e 282 = some p → p.2 ≠ 0) → (∀ p, e 283 = some p → p.2 ≠ 0) →
      resolution e = .ok (ratOfTag (e 283), ratOfTag (e 282))) ∧
    (∀ a, e 282 = some (a, 0) ∨ e 283 = some (a, 0) →
      resolution e = .error .zeroDivisionError) := by
  constructor
  · intro hx hy
    unfold resolution
    cases h282 : e 282 with
    | none =>
      cases h283 : e 283 with
      | none => simp [ratOfTag, pure, Except.pure, Bind.bind, Except.bind]
      | some p =>
        obtain ⟨a, b⟩ := p
        have hb : b ≠ 0 := by
          have := hy (a, b) h283
          simpa using this
        simp only [Bind.bind, Except.bind, pure, Except.pure]
        rw [mkFraction_exact hb]
        simp [ratOfTag]
    | some p =>
      obtain ⟨a, b⟩ := p
      have hb : b ≠ 0 := by
        have := hx (a, b) h282
        simpa using this
      cases h283 : e 283 with
      | none =>
        simp only [Bind.bind, Except.bind, pure, Except.pure]
        rw [mkFraction_exact hb]
        simp [ratOfTag]
      | some q =>
        obtain ⟨a2, b2⟩ := q
        have hb2 : b2 ≠ 0 := by
          have := hy (a2, b2) h283
          simpa using this
        simp only [Bind.bind, Except.bind, pure, Except.pure]
        rw [mkFraction_exact hb, mkFraction_exact hb2]
        simp [ratOfTag]
  · intro a hzero
    unfold resolution
    rcases hzero with h282 | h283
    · simp [h282, mkFraction, pure, Except.pure, Bind.bind, Except.bind, Functor.map, Except.map]
    · rw [h283]
      cases h282 : e 282 with
      | none => simp [mkFraction, pure, Except.pure, Bind.bind, Except.bind,
          Functor.map, Except.map]
      | some p =>
        obtain ⟨c, d⟩ := p
        by_cases hd : d = 0
        · subst hd
          simp [mkFraction, pure, Except.pure, Bind.bind, Except.bind, Functor.map, Except.map]
        · simp only [Bind.bind, Except.bind, pure, Except.pure]
          rw [mkFraction_exact hd]
          simp [mkFraction, Except.map]

/-- Witness for C9: tag 282 holds the rational 3/2, tag 283 is absent. -/
theorem resolution_exact_rational_witness :
    resolution (fun i => if i = 282 then some (3, 2) else none) = .ok (1, 3 / 2) := by
  have h := (resolution_exact_rational (fun i => if i = 282 then some (3, 2) else none)).1
    (by
      intro p hp
      have h2 : some ((3 : Int), (2 : Int)) = some p := hp
      have h3 := Option.some.inj h2
      rw [← h3]
      decide)
    (by
      intro p hp
      exact Option.noConfusion hp)
  rw [h]
  norm_num [ratOfTag]

/-- C10: `__getitem__` with a value that is neither an int, a slice nor a
tuple matches no `isinstance` branch, so the method falls through and
returns Python `None` — no error is raised and `self` is unchanged. -/
theorem getitem_other_returns_none {α : Type} (h : ImageHandle α) :
    getitem h .other = (h, .pyNone) := rfl

/-- C4: `TifImageHandle.get(i)` raises `IndexError` (spec:
`IndexOutOfRange`) exactly when `i` is outside the asymmetric bound
`(-N, N]` with `N = shape[0]`, i.e. precisely when `i <= -N` or `i > N`. -/
theorem get_fails_iff_outside_bound {α : Type} (h : ImageHandle α) (i : Int) (N : Nat)
    (r : List Nat) (hshape : h.shape = N :: r) :
    h.get i = .error .indexError ↔ (i ≤ -(N : Int) ∨ (N : Int) < i) := by
  simp only [ImageHandle.get, hshape]
  by_cases hb : -(N : Int) < i ∧ i ≤ (N : Int)
  · rw [if_neg (not_not_intro hb)]
    constructor
    · intro heq
      exfalso
      by_cases h4 : h.dataShape.length = 4
      · rw [if_pos h4] at heq
        exact Except.noConfusion heq
      · rw [if_neg h4] at heq
        exact Except.noConfusion heq
    · intro hor
      exfalso
      omega
  · rw [if_pos hb]
    constructor
    · intro _
      omega
    · intro _
      rfl

/-- Witness for C4 on a handle of shape (5, 4): index 6 is rejected. -/
theorem get_fails_iff_outside_bound_witness :
    (mkHandle "w.tif" none [5, 4] (fun k => k)).get 6 = .error .indexError := by
  exact (get_fails_iff_outside_bound (mkHandle "w.tif" none [5, 4] (fun k => k)) 6 5 [4]
    rfl).mpr (by decide)

/-- C5: for 4-dimensional TIFF data the logical frame `i` is rebuilt by
decoding the `numChannels = shape[3]` consecutive planes starting at plane
`i * numChannels` and stacking them along a new trailing axis; for any
other rank, `get(i)` decodes plane `i` directly. -/
theorem get_4d_stacks_planes {α : Type} :
    (∀ (h : ImageHandle α) (i : Int) (s0 s1 s2 s3 : Nat),
      h.dataShape = [s0, s1, s2, s3] → -(s0 : Int) < i → i ≤ (s0 : Int) →
      h.get i =
        .ok (.stack ((List.range s1).map (fun di : Nat => h.asarray (i * (s1 : Int) + (di : Int))))) ∧
      ((List.range s1).map (fun di : Nat => h.asarray (i * (s1 : Int) + (di : Int)))).length = s1 ∧
      (∀ di : Nat, di < s1 →
        ((List.range s1).map (fun dj : Nat => h.asarray (i * (s1 : Int) + (dj : Int))))[di]? =
          some (h.asarray (i * (s1 : Int) + (di : Int))))) ∧
    (∀ (h : ImageHandle α) (i : Int) (N : Nat) (r : List Nat),
      h.dataShape.length ≠ 4 → h.shape = N :: r → -(N : Int) < i → i ≤ (N : Int) →
      h.get i = .ok (.plane (h.asarray i))) := by
  constructor
  · intro h i s0 s1 s2 s3 hds hlo hhi
    have hsh : h.shape = [s0, s3, s2, s1] := by
      simp [ImageHandle.shape, hds]
    refine ⟨?_, by rw [List.length_map, List.length_range], ?_⟩
    · simp only [ImageHandle.get, hsh, hds]
      rw [if_neg (not_not_intro ⟨hlo, hhi⟩)]
      simp [List.getD]
    · intro di hdi
      rw [List.getElem?_map, List.getElem?_range hdi, Option.map_some']
  · intro h i N r hn4 hsh hlo hhi
    simp only [ImageHandle.get, hsh]
    rw [if_neg (not_not_intro ⟨hlo, hhi⟩), if_neg hn4]

/-- Witness for C5 on native shape (2, 3, 4, 5) with the identity plane
decoder: logical frame 1 is the stack of planes 3, 4, 5. -/
theorem get_4d_stacks_planes_witness :
    (mkHandle "w.tif" none [2, 3, 4, 5] (fun k => k)).get 1 = .ok (.stack [3, 4, 5]) := by
  have h := (get_4d_stacks_planes (α := Int)).1 (mkHandle "w.tif" none [2, 3, 4, 5] (fun k => k))
    1 2 3 4 5 rfl (by decide) (by decide)
  rw [h.1]
  decide

theorem setSlices_length (ts : List PySlice) :
    ∀ (acc : List PySlice) (k : Nat) (out : List PySlice),
      setSlices acc k ts = .ok out → out.length = acc.length := by
  induction ts with
  | nil =>
    intro acc k out h
    simp only [setSlices] at h
    injection h with h1
    rw [← h1]
  | cons s rest ih =>
    intro acc k out h
    simp only [setSlices] at h
    by_cases hdef : s = defaultSlice
    · rw [if_pos hdef] at h
      exact ih acc (k + 1) out h
    · rw [if_neg hdef] at h
      by_cases hk : k < acc.length
      · rw [if_pos hk] at h
        have h2 := ih (acc.set k s) (k + 1) out h
        rw [h2, List.length_set]
      · rw [if_neg hk] at h
        exact Except.noConfusion h

theorem updSpec_cons_default {s : PySlice} (acc rest : List PySlice) (k j : Nat)
    (hdef : s = defaultSlice) : updSpec acc rest (k + 1) j = updSpec acc (s :: rest) k j := by
  unfold updSpec
  by_cases hkj : k ≤ j
  · by_cases hk1 : k + 1 ≤ j
    · rw [if_pos hkj, if_pos hk1]
      have hidx : j - k = (j - (k + 1)) + 1 := by omega
      rw [hidx, List.getElem?_cons_succ]
    · have hj : j = k := by omega
      subst hj
      rw [if_pos hkj, if_neg hk1]
      simp [hdef]
  · rw [if_neg hkj, if_neg (by omega)]

theorem updSpec_cons_set {s : PySlice} (acc rest : List PySlice) (k j : Nat)
    (hdef : s ≠ defaultSlice) (hk : k < acc.length) :
    updSpec (acc.set k s) rest (k + 1) j = updSpec acc (s :: rest) k j := by
  unfold updSpec
  by_cases hkj : k ≤ j
  · by_cases hk1 : k + 1 ≤ j
    · rw [if_pos hkj, if_pos hk1]
      have hidx : j - k = (j - (k + 1)) + 1 := by omega
      rw [hidx, List.getElem?_cons_succ]
      cases hr : rest[j - (k + 1)]? with
      | none =>
        simp only []
        rw [List.getElem?_set_ne (by omega : k ≠ j)]
      | some s2 =>
        simp only []
        by_cases h2 : s2 = defaultSlice
        · rw [if_pos h2, if_pos h2, List.getElem?_set_ne (by omega : k ≠ j)]
        · rw [if_neg h2, if_neg h2]
    · have hj : j = k := by omega
      subst hj
      rw [if_pos hkj, if_neg hk1]
      have h0 : j - j = 0 := by omega
      rw [h0, List.getElem?_cons_zero]
      simp only []
      rw [if_neg hdef, List.getElem?_set_self hk]
  · rw [if_neg hkj, if_neg (by omega)]
    rw [List.getElem?_set_ne (by omega : k ≠ j)]

theorem setSlices_spec (ts : List PySlice) :
    ∀ (acc out : List PySlice) (k : Nat), setSlices acc k ts = .ok out →
      ∀ j : Nat, out[j]? = updSpec acc ts k j := by
  induction ts with
  | nil =>
    intro acc out k h j
    simp only [setSlices] at h
    injection h with h1
    rw [← h1]
    simp [updSpec]
  | cons s rest ih =>
    intro acc out k h j
    simp only [setSlices] at h
    by_cases hdef : s = defaultSlice
    · rw [if_pos hdef] at h
      rw [ih acc out (k + 1) h j, updSpec_cons_default acc rest k j hdef]
    · rw [if_neg hdef] at h
      by_cases hk : k < acc.length
      · rw [if_pos hk] at h
        rw [ih (acc.set k s) out (k + 1) h j, updSpec_cons_set acc rest k j hdef hk]
      · rw [if_neg hk] at h
        exact Except.noConfusion h

/-- C3: indexing with a tuple of slices yields a handle whose slices are
the original handle's slices with exactly the non-default tuple positions
replaced; positions whose tuple entry is the full-range default (and
positions beyond the tuple) keep the original handle's slice. -/
theorem tuple_index_updates_nondefault {α : Type} (h : ImageHandle α) (ts : List PySlice)
    (h2 : ImageHandle α) (hh : (getitem h (.tuple ts)).2 = .handle h2) :
    ∀ j : Nat, h2.slices[j]? = updSpec h.slices ts 0 j := by
  cases hset : setSlices h.slices 0 ts with
  | error e =>
    simp only [getitem, hset] at hh
    exact GetItemRes.noConfusion hh
  | ok l =>
    simp only [getitem, hset] at hh
    injection hh with hx
    subst hx
    intro j
    exact setSlices_spec ts h.slices l 0 hset j

/-- Witness for C3: on the fresh (3,4,5) handle, the tuple
`(slice(None), slice(0,1))` narrows position 1 and keeps positions 0, 2. -/
theorem tuple_index_updates_nondefault_witness :
    (resHandle (getitem cexBase (.tuple [defaultSlice, slice01])).2 cexBase).slices[1]? =
        some slice01 ∧
      (resHandle (getitem cexBase (.tuple [defaultSlice, slice01])).2 cexBase).slices[0]? =
        some defaultSlice := by
  have h := tuple_index_updates_nondefault cexBase [defaultSlice, slice01]
    (resHandle (getitem cexBase (.tuple [defaultSlice, slice01])).2 cexBase) rfl
  constructor
  · rw [h 1]
    decide
  · rw [h 0]
    decide

/-- C8: `len(slices) == ndim` holds after construction and is preserved
by every operation that returns a handle: `copy`, single-slice indexing
and tuple indexing (integer indexing returns a decoded frame, not a
handle, and any other index argument returns `None`). -/
theorem slices_length_eq_ndim {α : Type} :
    (∀ (fn : String) (ch : Option Nat) (ds : List Nat) (arr : Int → α),
      (mkHandle fn ch ds arr).slices.length = (mkHandle fn ch ds arr).ndim) ∧
    (∀ h : ImageHandle α, h.copy.slices.length = h.copy.ndim) ∧
    (∀ (h : ImageHandle α) (v : IndexArg) (h2 : ImageHandle α),
      h.slices.length = h.ndim → (getitem h v).2 = .handle h2 →
      h2.slices.length = h2.ndim) := by
  have hmk : ∀ (fn : String) (ch : Option Nat) (ds : List Nat) (arr : Int → α),
      (mkHandle fn ch ds arr).slices.length = (mkHandle fn ch ds arr).ndim := by
    intro fn ch ds arr
    simp [mkHandle, ImageHandle.ndim]
  refine ⟨hmk, fun h => hmk _ _ _ _, ?_⟩
  intro h v h2 hinv hh
  cases v with
  | int i =>
    cases hg : h.get i with
    | ok f =>
      simp only [getitem, hg] at hh
      exact GetItemRes.noConfusion hh
    | error e =>
      simp only [getitem, hg] at hh
      exact GetItemRes.noConfusion hh
  | slice s =>
    simp only [getitem] at hh
    by_cases he : h.copy.slices.isEmpty
    · rw [if_pos he] at hh
      exact GetItemRes.noConfusion hh
    · rw [if_neg he] at hh
      injection hh with hx
      subst hx
      simp [ImageHandle.copy, mkHandle, ImageHandle.ndim]
  | tuple ts =>
    cases hset : setSlices h.slices 0 ts with
    | ok l =>
      simp only [getitem, hset] at hh
      injection hh with hx
      subst hx
      have hlen := setSlices_length ts h.slices 0 l hset
      simp only [ImageHandle.copy, mkHandle, ImageHandle.ndim]
      rw [hlen, hinv]
      rfl
    | error e =>
      simp only [getitem, hset] at hh
      exact GetItemRes.noConfusion hh
  | other =>
    simp only [getitem] at hh
    exact GetItemRes.noConfusion hh

/-- Witness for C8: tuple indexing on the fresh (3,4,5) handle preserves
the invariant. -/
theorem slices_length_eq_ndim_witness :
    (resHandle (getitem cexBase (.tuple [defaultSlice, slice01])).2 cexBase).slices.length =
      (resHandle (getitem cexBase (.tuple [defaultSlice, slice01])).2 cexBase).ndim := by
  exact (slices_length_eq_ndim (α := Nat)).2.2 cexBase (.tuple [defaultSlice, slice01]) _ rfl rfl

/-- C6 (code bug in the source): the lazy branch of `imread` looks the
extension up in a dict holding only `'tif'` and calls the result without
checking for `None`; for every other extension the lookup yields `None`
and calling it raises `TypeError: 'NoneType' object is not callable` —
not the `NotImplemented` error the spec states (and which the eager
branch does raise for its own unregistered extensions). -/
theorem imread_lazy_unregistered_raises_typeerror {α : Type}
    (openTif : String → List Nat × (Int → α)) (readers : List Char → String → NDArr α)
    (channel : Option Nat) (filepath : String)
    (hdot : filepath.data.contains '.' = true)
    (hext : pyExt filepath ≠ "tif".data) :
    imread openTif readers filepath true channel = .error .typeError := by
  unfold imread
  rw [if_neg (not_not_intro hdot)]
  simp only [if_true]
  rw [if_neg hext]

/-- Witness for C6: a lazy read of `a.png` raises `TypeError`. -/
theorem imread_lazy_unregistered_raises_typeerror_witness :
    imread (fun _ => ([], fun _ => (0 : Nat))) (fun _ _ => ⟨[], fun _ => 0⟩) "a.png" true none =
      .error .typeError := by
  exact imread_lazy_unregistered_raises_typeerror _ _ _ "a.png" (by decide) (by decide)

/-- C7: eager `imread` with a channel selector: when the decoded array is
4-dimensional — native shape `(F, C, H, W)`, post-transpose `(F, H, W, C)`
— the result is that channel's 3-dimensional array of shape `(F, H, W)`,
reading the native array at the fixed channel; when the decoded array is
not 4-dimensional the call fails with `NotImplementedError`. -/
theorem imread_channel_selector {α : Type}
    (openTif : String → List Nat × (Int → α)) (readers : List Char → String → NDArr α)
    (filepath : String) (c : Nat)
    (hdot : filepath.data.contains '.' = true)
    (hext : pyExt filepath ∈ eagerExts) :
    (∀ s0 s1 s2 s3 : Nat, (readers (pyExt filepath) filepath).shape = [s0, s1, s2, s3] →
      ∃ r : NDArr α, imread openTif readers filepath false (some c) = .ok (.arr r) ∧
        r.shape = [s0, s2, s3] ∧
        ∀ i j k : Nat, r.val [i, j, k] = (readers (pyExt filepath) filepath).val [i, c, j, k]) ∧
    ((readers (pyExt filepath) filepath).shape.length ≠ 4 →
      imread openTif readers filepath false (some c) = .error .notImplementedError) := by
  constructor
  · intro s0 s1 s2 s3 hsh
    refine ⟨npSelectLast (npTranspose0231 (readers (pyExt filepath) filepath)) c, ?_, ?_, ?_⟩
    · unfold imread
      rw [if_neg (not_not_intro hdot)]
      simp only [if_false]
      rw [if_pos hext]
      have h4 : (readers (pyExt filepath) filepath).ndim = 4 := by
        simp [NDArr.ndim, hsh]
      rw [if_pos h4]
      have h4t : (npTranspose0231 (readers (pyExt filepath) filepath)).ndim = 4 := by
        simp [npTranspose0231, NDArr.ndim, hsh]
      rw [if_pos h4t, if_neg (by decide : ¬ (false = true))]
    · simp [npSelectLast, npTranspose0231, hsh]
    · intro i j k
      simp [npSelectLast, npTranspose0231]
  · intro hlen
    unfold imread
    rw [if_neg (not_not_intro hdot)]
    simp only [if_false]
    rw [if_pos hext]
    have h4 : ¬ ((readers (pyExt filepath) filepath).ndim = 4) := by
      simpa [NDArr.ndim] using hlen
    rw [if_neg h4, if_neg h4, if_neg (by decide : ¬ (false = true))]

/-- Witness for C7: requesting a channel from 3-dimensional data fails. -/
theorem imread_channel_selector_witness :
    imread (fun _ => ([], fun _ => (0 : Nat))) (fun _ _ => ⟨[2, 3, 4], fun _ => 0⟩) "b.png"
      false (some 0) = .error .notImplementedError := by
  exact (imread_channel_selector _ _ "b.png" 0 (by decide) (by decide)).2 (by decide)

theorem mkHandle_channel {α : Type} (fn : String) (ds : List Nat) (arr : Int → α) (x : Nat) :
    (mkHandle fn (some x) ds arr).channel = if x = 0 then 1 else x := by
  cases x with
  | zero => rfl
  | succ k => rfl

theorem ImageHandle.ext2 {α : Type} {u v : ImageHandle α}
    (e1 : u.filename = v.filename) (e2 : u.channel = v.channel)
    (e3 : u.dataShape = v.dataShape) (e4 : u.asarray = v.asarray)
    (e5 : u.slices = v.slices) : u = v := by
  cases u
  cases v
  simp only at e1 e2 e3 e4 e5
  subst e1
  subst e2
  subst e3
  subst e4
  subst e5
  rfl

theorem getitem_preserves_self {α : Type} (g : ImageHandle α) (v : IndexArg) :
    (getitem g v).1 = g := by
  cases v with
  | int i => rfl
  | slice s =>
    simp only [getitem]
    split
    · rfl
    · rfl
  | tuple ts =>
    simp only [getitem]
    split
    · rfl
    · rfl
  | other => rfl

theorem setSlices_two (acc : List PySlice) (hacc : 1 < acc.length) (s : PySlice)
    (hs : ¬ (s = defaultSlice)) :
    setSlices acc 0 [defaultSlice, s] = .ok (acc.set 1 s) := by
  simp only [setSlices]
  rw [if_pos trivial, if_neg hs, if_pos (show 0 + 1 < acc.length by omega)]

theorem setSlices_two' (acc : List PySlice) (hacc : 1 < acc.length) (s t : PySlice)
    (hs : ¬ (s = defaultSlice)) (ht : ¬ (t = defaultSlice)) :
    setSlices acc 0 [s, t] = .ok ((acc.set 0 s).set 1 t) := by
  simp only [setSlices]
  rw [if_neg hs, if_pos (show 0 < acc.length by omega), if_neg ht,
    if_pos (show 0 + 1 < (acc.set 0 s).length by rw [List.length_set]; omega)]

/-- C2 (amended): for a handle whose slices in dimensions 2 and above are
all the full-range default — in particular any freshly constructed handle
— the composed slicing `handle[2:5][:, 0:10]` leaves the original's
slices unmodified (every `__getitem__` call returns `self` unchanged) and
yields the same handle as `handle[2:5, 0:10]`, hence the same
`slice_shape` and the same iterated frames.  Without that condition the
two can differ, because single-slice indexing goes through `copy()`,
which resets the slice list (see the counterexample). -/
theorem composed_slicing_equals_direct {α : Type} (h : ImageHandle α)
    (hlen : h.slices.length = h.dataShape.length)
    (hn : 2 ≤ h.dataShape.length)
    (hdef : ∀ j s, 2 ≤ j → h.slices[j]? = some s → s = defaultSlice) :
    (∀ v : IndexArg, (getitem h v).1 = h) ∧
    isHandle (composedResult h) = true ∧
    composedResult h = directResult h ∧
    (∀ b c : ImageHandle α, composedResult h = .handle b → directResult h = .handle c →
      b.slice_shape = c.slice_shape ∧
      (∀ (β : Type) (crop : Frame α → List PySlice → β),
        iterFrames crop b = iterFrames crop c)) := by
  have hcslen : h.copy.slices.length = h.dataShape.length := by
    simp [ImageHandle.copy, mkHandle]
  have hne : ¬ (h.copy.slices.isEmpty = true) := by
    intro hcontra
    rw [List.isEmpty_eq_true] at hcontra
    have hc2 : h.copy.slices.length = 0 := by rw [hcontra]; rfl
    rw [hcslen] at hc2
    omega
  have hstep1 : (getitem h (.slice slice25)).2 =
      .handle { h.copy with slices := h.copy.slices.set 0 slice25 } := by
    simp only [getitem]
    rw [if_neg hne]
  have hset2 := setSlices_two (h.copy.slices.set 0 slice25)
    (by rw [List.length_set, hcslen]; omega) slice010 (by decide)
  have hstep2 : (getitem ({ h.copy with slices := h.copy.slices.set 0 slice25 } : ImageHandle α)
      (.tuple [defaultSlice, slice010])).2 =
      .handle { ({ h.copy with slices := h.copy.slices.set 0 slice25 } : ImageHandle α).copy with
        slices := (h.copy.slices.set 0 slice25).set 1 slice010 } := by
    simp only [getitem, hset2]
  have hset3 := setSlices_two' h.slices (by rw [hlen]; omega) slice25 slice010
    (by decide) (by decide)
  have hstep3 : directResult h =
      .handle { h.copy with slices := (h.slices.set 0 slice25).set 1 slice010 } := by
    simp only [directResult, getitem, hset3]
  have hnz : (mkHandle h.filename (some h.channel) h.dataShape h.asarray).channel ≠ 0 := by
    rw [mkHandle_channel]
    split
    · omega
    · omega
  have hch : ({ ({ h.copy with slices := h.copy.slices.set 0 slice25 } : ImageHandle α).copy with
      slices := (h.copy.slices.set 0 slice25).set 1 slice010 } : ImageHandle α).channel =
      ({ h.copy with slices := (h.slices.set 0 slice25).set 1 slice010 } : ImageHandle α).channel := by
    show (({ h.copy with slices := h.copy.slices.set 0 slice25 } : ImageHandle α).copy).channel =
      h.copy.channel
    simp only [ImageHandle.copy]
    rw [mkHandle_channel]
    rw [if_neg hnz]
  have hslices : (h.copy.slices.set 0 slice25).set 1 slice010 =
      (h.slices.set 0 slice25).set 1 slice010 := by
    apply List.ext_getElem?
    intro j
    match j with
    | 0 =>
      rw [List.getElem?_set_ne (by omega : (1 : Nat) ≠ 0),
        List.getElem?_set_ne (by omega : (1 : Nat) ≠ 0),
        List.getElem?_set_self (show 0 < h.copy.slices.length by rw [hcslen]; omega),
        List.getElem?_set_self (show 0 < h.slices.length by rw [hlen]; omega)]
    | 1 =>
      rw [List.getElem?_set_self
          (show 1 < (h.copy.slices.set 0 slice25).length by rw [List.length_set, hcslen]; omega),
        List.getElem?_set_self
          (show 1 < (h.slices.set 0 slice25).length by rw [List.length_set, hlen]; omega)]
    | (j + 2) =>
      rw [List.getElem?_set_ne (by omega : (1 : Nat) ≠ j + 2),
        List.getElem?_set_ne (by omega : (1 : Nat) ≠ j + 2),
        List.getElem?_set_ne (by omega : (0 : Nat) ≠ j + 2),
        List.getElem?_set_ne (by omega : (0 : Nat) ≠ j + 2)]
      cases hel : h.slices[j + 2]? with
      | some s =>
        have hsd := hdef (j + 2) s (by omega) hel
        subst hsd
        have hlt : j + 2 < h.slices.length := by
          rcases List.getElem?_eq_some_iff.mp hel with ⟨hh2, -⟩
          exact hh2
        have hrep : h.copy.slices[j + 2]? = some defaultSlice := by
          simp only [ImageHandle.copy, mkHandle]
          rw [List.getElem?_replicate, if_pos (by rw [hlen] at hlt; exact hlt)]
        rw [hrep]
      | none =>
        have hge : h.slices.length ≤ j + 2 := List.getElem?_eq_none_iff.mp hel
        have hrep : h.copy.slices[j + 2]? = none := by
          apply List.getElem?_eq_none
          rw [hcslen]
          omega
        rw [hrep]
  have hbc : ({ ({ h.copy with slices := h.copy.slices.set 0 slice25 } : ImageHandle α).copy with
      slices := (h.copy.slices.set 0 slice25).set 1 slice010 } : ImageHandle α) =
      ({ h.copy with slices := (h.slices.set 0 slice25).set 1 slice010 } : ImageHandle α) :=
    ImageHandle.ext2 rfl hch rfl rfl hslices
  have hcomp : composedResult h =
      .handle { ({ h.copy with slices := h.copy.slices.set 0 slice25 } : ImageHandle α).copy with
        slices := (h.copy.slices.set 0 slice25).set 1 slice010 } := by
    simp only [composedResult, hstep1]
    exact hstep2
  refine ⟨getitem_preserves_self h, ?_, ?_, ?_⟩
  · rw [hcomp]
    rfl
  · rw [hcomp, hstep3, hbc]
  · intro b c hb hc
    rw [hcomp] at hb
    rw [hstep3] at hc
    injection hb with hb2
    injection hc with hc2
    subst hb2
    subst hc2
    exact ⟨by rw [hbc], fun β crop => by rw [hbc]⟩

/-- Witness for (amended) C2 on a fresh 3-dimensional handle. -/
theorem composed_slicing_equals_direct_witness :
    composedResult (mkHandle "w.tif" none [6, 7, 8] (fun x : Int => x)) =
      directResult (mkHandle "w.tif" none [6, 7, 8] (fun x : Int => x)) := by
  refine (composed_slicing_equals_direct _ rfl (by decide) ?_).2.2.1
  intro j s hj hs
  rw [show (mkHandle "w.tif" none [6, 7, 8] (fun x : Int => x)).slices =
      List.replicate 3 defaultSlice from rfl] at hs
  rw [List.getElem?_replicate] at hs
  by_cases hjl : j < 3
  · rw [if_pos hjl] at hs
    injection hs with hs2
    exact hs2.symm
  · rw [if_neg hjl] at hs
    exact Option.noConfusion hs

/-- C2 counterexample: for the reachable handle `cexNarrowed`
(= `cexBase[:, :, 0:1]`, i.e. dimension 2 narrowed beforehand), both
`handle[2:5][:, 0:10]` and `handle[2:5, 0:10]` return handles, but they
differ in `slice_shape` (`[1, 4, 5]` against `[1, 4, 1]`): the composed
form resets the prior dimension-2 narrowing because the single-slice
branch of `__getitem__` goes through `copy()`. -/
theorem composed_slicing_differs_on_narrowed :
    isHandle (composedResult cexNarrowed) = true ∧
    isHandle (directResult cexNarrowed) = true ∧
    (resHandle (composedResult cexNarrowed) cexBase).slice_shape ≠
      (resHandle (directResult cexNarrowed) cexBase).slice_shape := by
  refine ⟨rfl, rfl, ?_⟩
  decide
